import Mathlib

/-!
Verification of the composable caching library (package `cache`).

The Go code is shallowly embedded: every cache layer becomes a pure Lean
function on an explicit state, every Go method returning `(result, error)`
becomes a Lean function returning a pair.  Go's `error` interface is
modelled by `Option GoErr` (`none` is Go's `nil` error), Go maps are
modelled by association lists with at most one binding per key, and the
`container/list` doubly-linked recency list of the LRU strategy is
modelled by a list of `(node-id, key)` pairs, front first, with unique
node ids (node identity is what `list.Remove` and `MoveToFront` act on).
The pluggable clock is modelled by passing the current reading of
`Now()` (an integer timestamp) to each time-sensitive operation, as a
manually advanced fake clock would supply it.
-/

/-- Model of Go's `error` interface as used by the cache package:
`keyNotFound` is the sentinel `ErrKeyNotFound`; `other n` stands for any
other (backend-specific) error value. -/
inductive GoErr : Type where
  | keyNotFound : GoErr
  | other : Nat → GoErr
deriving DecidableEq, Repr

/-- Lookup in an association list (model of reading a Go map). -/
def assocGet [DecidableEq K] : List (K × α) → K → Option α
  | [], _ => none
  | p :: rest, k => if p.1 = k then some p.2 else assocGet rest k

/-- Deletion from an association list (model of Go's `delete(m, k)`). -/
def assocDel [DecidableEq K] : List (K × α) → K → List (K × α)
  | [], _ => []
  | p :: rest, k => if p.1 = k then assocDel rest k else p :: assocDel rest k

/-- Insertion/overwrite in an association list (model of Go's `m[k] = v`):
any previous binding of the key is dropped and the new one is prepended,
so each key has at most one binding. -/
def assocSet [DecidableEq K] (m : List (K × α)) (k : K) (a : α) : List (K × α) :=
  (k, a) :: assocDel m k

/-- Interface record for the Go `Cache` interface: the behaviour of a cache
with state type `σ`.  Each method threads the (possibly mutated) state. -/
structure CacheOps (σ K V : Type) where
  Put : σ → K → V → σ × Option GoErr
  Get : σ → K → σ × (Option V × Option GoErr)
  Remove : σ → K → σ × Bool
  Flush : σ → σ × Option GoErr
  Len : σ → Nat

/-- State of the `memoryStorage` leaf: the Go map
`map[interface{}]interface{}`, as an association list with unique keys. -/
abbrev memoryStorage (K V : Type) := List (K × V)

/-- Go `memoryStorage.Put`: `(*s)[key] = value`, never fails. -/
def memoryStorage.Put [DecidableEq K] (s : memoryStorage K V) (k : K) (v : V) :
    memoryStorage K V × Option GoErr :=
  (assocSet s k v, none)

/-- Go `memoryStorage.Get`: value on hit, `ErrKeyNotFound` on miss. -/
def memoryStorage.Get [DecidableEq K] (s : memoryStorage K V) (k : K) :
    Option V × Option GoErr :=
  match assocGet s k with
  | some v => (some v, none)
  | none => (none, some GoErr.keyNotFound)

/-- Go `memoryStorage.Remove`: deletes the key if present and reports
whether it was present. -/
def memoryStorage.Remove [DecidableEq K] (s : memoryStorage K V) (k : K) :
    memoryStorage K V × Bool :=
  match assocGet s k with
  | some _ => (assocDel s k, true)
  | none => (s, false)

/-- The `memoryStorage` leaf packaged as a `CacheOps`; `Flush` is a no-op
and `Len` is the map size. -/
def memOps (K V : Type) [DecidableEq K] : CacheOps (memoryStorage K V) K V where
  Put := memoryStorage.Put
  Get := fun s k => (s, memoryStorage.Get s k)
  Remove := memoryStorage.Remove
  Flush := fun s => (s, none)
  Len := fun s => s.length

/-- Test double used to exercise error propagation through wrapper layers:
a stateless cache whose `Put` always fails with the given error (the Go
`Cache` is an interface, so wrappers must behave correctly over any
implementation). -/
def failingCache (e : GoErr) (K V : Type) : CacheOps Unit K V where
  Put := fun _ _ _ => ((), some e)
  Get := fun _ _ => ((), (none, some GoErr.keyNotFound))
  Remove := fun _ _ => ((), false)
  Flush := fun _ => ((), none)
  Len := fun _ => 0

/-- Interface record for the Go `EvictionStrategy` interface, over a
strategy-state type `τ`. -/
structure StrategyOps (τ K : Type) where
  Added : τ → K → τ
  Removed : τ → K → τ × Bool
  Hit : τ → K → τ
  Pop : τ → τ × Option K

/-- State of the `lruEviction` strategy: `keys` models the
`container/list` recency list (front first) where each node carries a
unique id standing for the `*list.Element` identity, and `elements` models
the Go map from key to (the id of) its list element. -/
structure lruEviction (K : Type) where
  keys : List (Nat × K)
  elements : List (K × Nat)
  nextId : Nat
deriving DecidableEq, Repr

/-- Go `NewLRUEviction`: empty list, empty map. -/
def NewLRUEviction (K : Type) : lruEviction K := ⟨[], [], 0⟩

/-- Removal of the node with the given id from the recency list (model of
`list.Remove(elem)`, which removes by node identity). -/
def nodesDel : List (Nat × K) → Nat → List (Nat × K)
  | [], _ => []
  | n :: rest, i => if n.1 = i then nodesDel rest i else n :: nodesDel rest i

/-- Go `lruEviction.Added`: `e.elements[key] = e.keys.PushFront(key)`.
A fresh node is always pushed, and the map entry is overwritten; if the
key already had a node, that older node stays in the list (leaked). -/
def lruEviction.Added [DecidableEq K] (e : lruEviction K) (k : K) : lruEviction K :=
  { keys := (e.nextId, k) :: e.keys
    elements := assocSet e.elements k e.nextId
    nextId := e.nextId + 1 }

/-- Go `lruEviction.Removed`: if the map has an element for the key,
unlink it and drop the map entry; report whether it was found. -/
def lruEviction.Removed [DecidableEq K] (e : lruEviction K) (k : K) : lruEviction K × Bool :=
  match assocGet e.elements k with
  | some i =>
      ({ keys := nodesDel e.keys i, elements := assocDel e.elements k, nextId := e.nextId },
        true)
  | none => (e, false)

/-- Go `lruEviction.Hit`: move the key's node to the front if tracked
(the node keeps its id and its stored key), otherwise fall back to
`Added`. -/
def lruEviction.Hit [DecidableEq K] (e : lruEviction K) (k : K) : lruEviction K :=
  match assocGet e.elements k with
  | some i => { e with keys := (i, k) :: nodesDel e.keys i }
  | none => e.Added k

/-- Go `lruEviction.Pop`: unlink the back node and return its key, deleting
the map entry for that key unconditionally (even when the map points to a
different, newer node for the same key); none when the list is empty. -/
def lruEviction.Pop [DecidableEq K] (e : lruEviction K) : lruEviction K × Option K :=
  match e.keys.getLast? with
  | none => (e, none)
  | some n =>
      ({ keys := e.keys.dropLast, elements := assocDel e.elements n.2, nextId := e.nextId },
        some n.2)

/-- The LRU strategy packaged as a `StrategyOps`. -/
def lruOps (K : Type) [DecidableEq K] : StrategyOps (lruEviction K) K where
  Added := lruEviction.Added
  Removed := lruEviction.Removed
  Hit := lruEviction.Hit
  Pop := lruEviction.Pop

/-- Eviction loop of Go `evictingCache.Put`:
`for Len() >= maxLen { toEvict := Pop(); if nil break; if !Remove(toEvict) break }`.
The Go loop is unbounded; here it takes explicit fuel, so a run that exits
the loop within the fuel coincides with the Go execution (each theorem
below either quantifies over the fuel or uses fuel amply larger than the
number of iterations of the concrete run). -/
def evictLoop (ops : CacheOps σ K V) (strat : StrategyOps τ K) (maxLen : Nat) :
    Nat → σ → τ → σ × τ
  | 0, s, t => (s, t)
  | Nat.succ fuel, s, t =>
    if maxLen ≤ ops.Len s then
      match strat.Pop t with
      | (t2, none) => (s, t2)
      | (t2, some k) =>
        match ops.Remove s k with
        | (s2, true) => evictLoop ops strat maxLen fuel s2 t2
        | (s2, false) => (s2, t2)
    else (s, t)

/-- Go `evictingCache.Put` (the bounded variant): run the eviction loop,
perform the inner `Put`, register `Added(key)` only when it succeeded —
and then `return nil`: the captured inner error is discarded. -/
def evictingCache.Put (ops : CacheOps σ K V) (strat : StrategyOps τ K)
    (maxLen fuel : Nat) (s : σ) (t : τ) (k : K) (v : V) : (σ × τ) × Option GoErr :=
  let st1 := evictLoop ops strat maxLen fuel s t
  match ops.Put st1.1 k v with
  | (s2, none) => ((s2, strat.Added st1.2 k), none)
  | (s2, some _) => ((s2, st1.2), none)

/-- Go `evictingCache.Get`: delegate, and register a strategy `Hit` on
success. -/
def evictingCache.Get (ops : CacheOps σ K V) (strat : StrategyOps τ K)
    (s : σ) (t : τ) (k : K) : (σ × τ) × (Option V × Option GoErr) :=
  match ops.Get s k with
  | (s2, (v?, none)) => ((s2, strat.Hit t k), (v?, none))
  | (s2, (v?, some e)) => ((s2, t), (v?, some e))

/-- Go `evictingCache.Remove`: always register `Removed(key)`, then
delegate. -/
def evictingCache.Remove (ops : CacheOps σ K V) (strat : StrategyOps τ K)
    (s : σ) (t : τ) (k : K) : (σ × τ) × Bool :=
  let t2 := (strat.Removed t k).1
  match ops.Remove s k with
  | (s2, b) => ((s2, t2), b)

/-- Runs a sequence of `Put`s through the bounded eviction layer over the
memory storage with a LRU strategy; each call gets fuel `Len + 1`, which
covers every iteration the Go loop can make on this instantiation (each
continuing iteration removes one entry from the storage). -/
def runPuts (maxLen : Nat) :
    List (Nat × Nat) → memoryStorage Nat Nat → lruEviction Nat →
      memoryStorage Nat Nat × lruEviction Nat
  | [], s, t => (s, t)
  | (k, v) :: rest, s, t =>
    let r := evictingCache.Put (memOps Nat Nat) (lruOps Nat) maxLen (s.length + 1) s t k v
    runPuts maxLen rest r.1.1 r.1.2

/-- Go `writeThrough.Put`: the outer cache is written first; only when the
outer `Put` succeeds is the inner `Put` performed, whose error is
returned. -/
def writeThrough.Put (outer : CacheOps σo K V) (inner : CacheOps σi K V)
    (so : σo) (si : σi) (k : K) (v : V) : (σo × σi) × Option GoErr :=
  match outer.Put so k v with
  | (so2, some e) => ((so2, si), some e)
  | (so2, none) =>
    match inner.Put si k v with
    | (si2, ei) => ((so2, si2), ei)

/-- Record of one invocation of the logging function of the `errorLogger`
layer, tagged with the operation that produced it. -/
inductive LogEvent : Type where
  | putE : GoErr → LogEvent
  | getE : GoErr → LogEvent
  | flushE : GoErr → LogEvent
deriving DecidableEq, Repr

/-- State of the `errorLogger` layer: the inner state plus the list of
messages logged so far. -/
structure ELState (σ : Type) where
  inner : σ
  log : List LogEvent

/-- Go `errorLogger.Put`: the inner error is shadowed inside the `if`,
logged when non-nil, and the method ends in `return nil`. -/
def errorLogger.Put (ops : CacheOps σ K V) (st : ELState σ) (k : K) (v : V) :
    ELState σ × Option GoErr :=
  match ops.Put st.inner k v with
  | (s2, some e) => (⟨s2, st.log ++ [LogEvent.putE e]⟩, none)
  | (s2, none) => (⟨s2, st.log⟩, none)

/-- Go `errorLogger.Get`: value and error are returned unchanged; a non-nil
error other than `ErrKeyNotFound` is logged (the Go body also reassigns its
local `key` variable to `ErrKeyNotFound` in that branch, which is dead code
and affects nothing observable). -/
def errorLogger.Get (ops : CacheOps σ K V) (st : ELState σ) (k : K) :
    ELState σ × (Option V × Option GoErr) :=
  match ops.Get st.inner k with
  | (s2, (v?, some e)) =>
    if e = GoErr.keyNotFound then (⟨s2, st.log⟩, (v?, some e))
    else (⟨s2, st.log ++ [LogEvent.getE e]⟩, (v?, some e))
  | (s2, (v?, none)) => (⟨s2, st.log⟩, (v?, none))

/-- Go `errorLogger.Flush`: like `Put`, the inner error is logged when
non-nil and the method returns nil. -/
def errorLogger.Flush (ops : CacheOps σ K V) (st : ELState σ) :
    ELState σ × Option GoErr :=
  match ops.Flush st.inner with
  | (s2, some e) => (⟨s2, st.log ++ [LogEvent.flushE e]⟩, none)
  | (s2, none) => (⟨s2, st.log⟩, none)

/-- The `errorLogger` layer does not override `Remove`: it delegates via
the embedded `Cache`. -/
def errorLogger.Remove (ops : CacheOps σ K V) (st : ELState σ) (k : K) : ELState σ × Bool :=
  match ops.Remove st.inner k with
  | (s2, b) => (⟨s2, st.log⟩, b)

/-- State of the `expiringCache` layer (side-map variant): the inner state
plus the map from key to deadline timestamp. -/
structure ExpState (σ K : Type) where
  inner : σ
  dates : List (K × Int)

/-- Go `expiringCache.Remove`: drop the deadline entry and delegate. -/
def expiringCache.Remove [DecidableEq K] (ops : CacheOps σ K V) (st : ExpState σ K) (k : K) :
    ExpState σ K × Bool :=
  let r := ops.Remove st.inner k
  (⟨r.1, assocDel st.dates k⟩, r.2)

/-- Go `expiringCache.PutWithTTL`: inner `Put`; on success record the
deadline `Now() + ttl`.  The argument `now` is the clock reading at the
moment of the call. -/
def expiringCache.PutWithTTL [DecidableEq K] (ops : CacheOps σ K V) (st : ExpState σ K)
    (k : K) (v : V) (ttl now : Int) : ExpState σ K × Option GoErr :=
  match ops.Put st.inner k v with
  | (s2, none) => (⟨s2, assocSet st.dates k (now + ttl)⟩, none)
  | (s2, some e) => (⟨s2, st.dates⟩, some e)

/-- Go `expiringCache.Put`: `PutWithTTL` with the cache's default TTL. -/
def expiringCache.Put [DecidableEq K] (ops : CacheOps σ K V) (st : ExpState σ K)
    (k : K) (v : V) (ttl now : Int) : ExpState σ K × Option GoErr :=
  expiringCache.PutWithTTL ops st k v ttl now

/-- Go `expiringCache.Get` together with its `got` helper: delegate; on an
inner error return it; on success, if no deadline is recorded, record
`Now() + ttl` and return the value; if the deadline is strictly before
`Now()`, remove the entry through this layer's `Remove` and report
`ErrKeyNotFound`; otherwise return the value. -/
def expiringCache.Get [DecidableEq K] (ops : CacheOps σ K V) (st : ExpState σ K)
    (k : K) (ttl now : Int) : ExpState σ K × (Option V × Option GoErr) :=
  match ops.Get st.inner k with
  | (s1, (_, some e)) => (⟨s1, st.dates⟩, (none, some e))
  | (s1, (v?, none)) =>
    match assocGet st.dates k with
    | none => (⟨s1, assocSet st.dates k (now + ttl)⟩, (v?, none))
    | some t =>
      if t < now then
        ((expiringCache.Remove ops ⟨s1, st.dates⟩ k).1, (none, some GoErr.keyNotFound))
      else (⟨s1, st.dates⟩, (v?, none))

/-- Expiration scenario, step 0: expiration layer (TTL 8) over an empty
memory storage with a fake clock at t = 0. -/
def expStep0 : ExpState (memoryStorage Nat Nat) Nat := ⟨[], []⟩

/-- Expiration scenario, step 1: Put(5, 6) at t = 0. -/
def expStep1 : ExpState (memoryStorage Nat Nat) Nat × Option GoErr :=
  expiringCache.Put (memOps Nat Nat) expStep0 5 6 8 0

/-- Expiration scenario, step 2: Get(5) at t = 0. -/
def expStep2 : ExpState (memoryStorage Nat Nat) Nat × (Option Nat × Option GoErr) :=
  expiringCache.Get (memOps Nat Nat) expStep1.1 5 8 0

/-- Expiration scenario, step 3: Get(5) at t = 5. -/
def expStep3 : ExpState (memoryStorage Nat Nat) Nat × (Option Nat × Option GoErr) :=
  expiringCache.Get (memOps Nat Nat) expStep2.1 5 8 5

/-- Expiration scenario, step 4: Put(7, 8) at t = 5. -/
def expStep4 : ExpState (memoryStorage Nat Nat) Nat × Option GoErr :=
  expiringCache.Put (memOps Nat Nat) expStep3.1 7 8 8 5

/-- Expiration scenario, step 5: Get(5) at t = 15. -/
def expStep5 : ExpState (memoryStorage Nat Nat) Nat × (Option Nat × Option GoErr) :=
  expiringCache.Get (memOps Nat Nat) expStep4.1 5 8 15

/-- Expiration scenario, step 6: Get(7) at t = 15. -/
def expStep6 : ExpState (memoryStorage Nat Nat) Nat × (Option Nat × Option GoErr) :=
  expiringCache.Get (memOps Nat Nat) expStep5.1 7 8 15

/-- State of one single-flight `call`: resolution flag, resolved value,
resolved error.  A freshly created call is `⟨false, none, none⟩`. -/
structure CallState (V : Type) where
  resolved : Bool
  value : Option V
  err : Option GoErr
deriving DecidableEq, Repr

/-- Go `call.Resolve`: the first invocation marks the call resolved,
records the error (when non-nil) or the value, releases the waiters
(`Done`) and fires the on-resolve hook (`go c.onResolve()`); the returned
Bool reports whether those effects happened.  An invocation on an already
resolved call returns early and changes nothing. -/
def call.Resolve (c : CallState V) (v : Option V) (e : Option GoErr) : CallState V × Bool :=
  if c.resolved then (c, false)
  else
    match e with
    | some _ => (⟨true, c.value, e⟩, true)
    | none => (⟨true, v, c.err⟩, true)

/-- Go `call.Await`: what a waiter observes after the waiters are
released: the stored value and error. -/
def call.Await (c : CallState V) : Option V × Option GoErr := (c.value, c.err)

/-- State of the `singleFlight` layer: the inner state plus the calls
table mapping each key to its in-flight call. -/
structure SFState (σ K V : Type) where
  inner : σ
  calls : List (K × CallState V)

/-- Go `singleFlight.Remove`: under the lock, capture the pending call (if
any) and perform the inner `Remove`; after unlocking, resolve the captured
call with `(nil, ErrKeyNotFound)` and force the result to true.  The
resolved call stays in the table until its on-resolve hook deletes it. -/
def singleFlight.Remove [DecidableEq K] (ops : CacheOps σ K V) (st : SFState σ K V) (k : K) :
    SFState σ K V × Bool :=
  let c? := assocGet st.calls k
  let r := ops.Remove st.inner k
  match c? with
  | none => (⟨r.1, st.calls⟩, r.2)
  | some c =>
    (⟨r.1, assocSet st.calls k (call.Resolve c none (some GoErr.keyNotFound)).1⟩, true)

/-- LRU test state after Added 1..4, Hit(2), Hit(5) on a fresh strategy. -/
def lruScenA : lruEviction Nat :=
  ((((((NewLRUEviction Nat).Added 1).Added 2).Added 3).Added 4).Hit 2).Hit 5

/-- LRU test state after additionally Removed(3) and Removed(6). -/
def lruScenB : lruEviction Nat :=
  ((lruScenA.Removed 3).1.Removed 6).1

/-- Overwriting a key in an association list makes the new binding the one
found by lookup. -/
theorem assocGet_set_self [DecidableEq K] (m : List (K × α)) (k : K) (a : α) :
    assocGet (assocSet m k a) k = some a := by
  simp [assocSet, assocGet]

/-- C9: for every key k and value v, on the memory storage leaf, Put(k,v)
followed by Get(k) returns (v, nil); Put overwrites any previous value for
k, so the round-trip returns the most recently put value regardless of the
prior contents of the map. -/
theorem memoryStorage_put_get_roundtrip [DecidableEq K] (s : memoryStorage K V) (k : K) (v : V) :
    memoryStorage.Get (memoryStorage.Put s k v).1 k = (some v, none) := by
  simp [memoryStorage.Put, memoryStorage.Get, assocSet, assocGet]

/-- Witness: the round-trip theorem evaluated on a concrete map that
already binds the key, showing the overwrite. -/
theorem memoryStorage_put_get_roundtrip_witness :
    memoryStorage.Get (memoryStorage.Put [(1, 5)] 1 6).1 1 = (some 6, none) :=
  memoryStorage_put_get_roundtrip [(1, 5)] 1 6

/-- C1 (divergence witnessed): on the bounded eviction layer over an inner
cache whose Put(1,2) fails with an error, the layer's Put returns nil
rather than the inner error — `evictingCache.Put` ends in `return nil`,
discarding the captured inner error — while the strategy is indeed left
unregistered (no `Added`), as the claim states for a failed inner Put. -/
theorem evictingCache_put_swallows_inner_error :
    evictingCache.Put (failingCache (GoErr.other 1) Nat Nat) (lruOps Nat) 2 10
        () (NewLRUEviction Nat) 1 2
      = (((), NewLRUEviction Nat), none)
    ∧ ((failingCache (GoErr.other 1) Nat Nat).Put () 1 2).2 = some (GoErr.other 1) := by
  constructor <;> rfl

/-- C4 (divergence witnessed): with capacity 2 over the memory storage and
a fresh LRU strategy, the Put sequence (1,10),(1,11),(2,20),(3,30),(4,40)
leaves 3 entries in the storage: the overwrite of key 1 leaks a stale LRU
node, whose later Pop makes `Remove` return false, which breaks the
eviction loop and lets the storage grow past the bound. -/
theorem eviction_bound_violated :
    ((runPuts 2 [(1,10),(1,11),(2,20),(3,30),(4,40)] [] (NewLRUEviction Nat)).1).length = 3 ∧
      2 < 3 := by
  constructor
  · rfl
  · decide

/-- C8: on a fresh LRU strategy, after Added 1..4, Hit(2), Hit(5),
Removed(3) returns true, Removed(6) returns false, and successive Pops
yield 1, 4, 2, 5 and then none.  The states are `lruScenA` (after the
adds and hits) and `lruScenB` (after the two Removed calls). -/
theorem lru_order_scenario :
    (lruScenA.Removed 3).2 = true ∧
    ((lruScenA.Removed 3).1.Removed 6).2 = false ∧
    lruScenB.Pop.2 = some 1 ∧ lruScenB.Pop.1.Pop.2 = some 4 ∧
    lruScenB.Pop.1.Pop.1.Pop.2 = some 2 ∧
    lruScenB.Pop.1.Pop.1.Pop.1.Pop.2 = some 5 ∧
    lruScenB.Pop.1.Pop.1.Pop.1.Pop.1.Pop.2 = none := by
  decide

/-- C10: on a fresh LRU strategy, Added(k) twice for the same key leaves
two nodes for k in the recency list: two successive Pops both return k
(and only a third returns none). -/
theorem lru_added_twice_duplicates (K : Type) [DecidableEq K] (k : K) :
    (((NewLRUEviction K).Added k).Added k).Pop.2 = some k ∧
    (((NewLRUEviction K).Added k).Added k).Pop.1.Pop.2 = some k ∧
    (((NewLRUEviction K).Added k).Added k).Pop.1.Pop.1.Pop.2 = none := by
  simp [NewLRUEviction, lruEviction.Added, lruEviction.Pop, assocSet, assocDel, nodesDel,
    List.getLast?, List.dropLast]

/-- Witness: the duplicate-Added theorem evaluated at the concrete key 7. -/
theorem lru_added_twice_duplicates_witness :
    (((NewLRUEviction Nat).Added 7).Added 7).Pop.2 = some 7 ∧
    (((NewLRUEviction Nat).Added 7).Added 7).Pop.1.Pop.2 = some 7 ∧
    (((NewLRUEviction Nat).Added 7).Added 7).Pop.1.Pop.1.Pop.2 = none :=
  lru_added_twice_duplicates Nat 7

/-- C2 (counterexample): the claim is false on the code.  With a healthy
outer memory cache and an inner cache whose Put fails, the composed Put
returns the inner error but the outer cache now holds the entry, although
the claim requires the outer cache to be left unchanged on an inner
failure; and with a failing outer cache and a healthy inner memory cache,
the inner cache is never written at all, although the claim requires the
inner cache to be written first. -/
theorem writeThrough_put_claim_false :
    (writeThrough.Put (memOps Nat Nat) (failingCache (GoErr.other 2) Nat Nat) [] () 1 2
        = (([(1, 2)], ()), some (GoErr.other 2))
      ∧ memoryStorage.Get [(1, 2)] 1 = (some 2, none))
    ∧ writeThrough.Put (failingCache (GoErr.other 3) Nat Nat) (memOps Nat Nat) () [] 1 2
        = (((), []), some (GoErr.other 3)) := by
  exact ⟨⟨rfl, rfl⟩, rfl⟩

/-- C2 (amended): for every key k and value v, the write-through layer's
Put(k,v) writes to the outer cache first and writes to the inner cache
only after the outer Put succeeds; if the outer Put fails, its error is
returned and the inner cache is left unchanged; a failure of the inner Put
is also surfaced. -/
theorem writeThrough_put_outer_first (outer : CacheOps σo K V) (inner : CacheOps σi K V)
    (so : σo) (si : σi) (k : K) (v : V) :
    (∀ so2 e, outer.Put so k v = (so2, some e) →
      writeThrough.Put outer inner so si k v = ((so2, si), some e)) ∧
    (∀ so2 si2 ei, outer.Put so k v = (so2, none) → inner.Put si k v = (si2, ei) →
      writeThrough.Put outer inner so si k v = ((so2, si2), ei)) := by
  constructor
  · intro so2 e h
    simp [writeThrough.Put, h]
  · intro so2 si2 ei h1 h2
    simp [writeThrough.Put, h1, h2]

/-- Witness: the amended write-through behaviour evaluated over two memory
storages, both ending up holding the entry. -/
theorem writeThrough_put_outer_first_witness :
    writeThrough.Put (memOps Nat Nat) (memOps Nat Nat) [] [] 1 2
      = (([(1, 2)], [(1, 2)]), none) :=
  (writeThrough_put_outer_first (memOps Nat Nat) (memOps Nat Nat) [] [] 1 2).2
    [(1, 2)] [(1, 2)] none rfl rfl

/-- C3 (counterexample): the claim is false on the code.  Against an inner
cache whose Put fails, the error-logging layer's Put returns nil (the
inner error is logged and swallowed), not the inner error; and a Put error
equal to `ErrKeyNotFound` is logged too, so the layer does not log only
non-NotFound errors. -/
theorem errorLogger_claim_false :
    ((errorLogger.Put (failingCache (GoErr.other 4) Nat Nat) ⟨(), []⟩ 1 2).2 = none
      ∧ ((failingCache (GoErr.other 4) Nat Nat).Put () 1 2).2 = some (GoErr.other 4))
    ∧ (errorLogger.Put (failingCache GoErr.keyNotFound Nat Nat) ⟨(), []⟩ 1 2).1.log
        = [LogEvent.putE GoErr.keyNotFound] := by
  exact ⟨⟨rfl, rfl⟩, rfl⟩

/-- C3 (amended): the error-logging layer returns the inner Get's value
and error unchanged (NotFound included), logging only non-NotFound Get
errors; its Put and Flush log any non-nil inner error and return nil, so
Put and Flush errors are swallowed rather than propagated; Remove
delegates unchanged. -/
theorem errorLogger_amended (ops : CacheOps σ K V) (st : ELState σ) (k : K) (v : V) :
    (errorLogger.Put ops st k v).2 = none ∧
    (errorLogger.Get ops st k).2 = (ops.Get st.inner k).2 ∧
    (errorLogger.Flush ops st).2 = none ∧
    (errorLogger.Remove ops st k).2 = (ops.Remove st.inner k).2 ∧
    (errorLogger.Get ops st k).1.log = st.log ++
      (match (ops.Get st.inner k).2.2 with
        | some e => if e = GoErr.keyNotFound then [] else [LogEvent.getE e]
        | none => []) ∧
    (errorLogger.Put ops st k v).1.log = st.log ++
      (match (ops.Put st.inner k v).2 with
        | some e => [LogEvent.putE e]
        | none => []) ∧
    (errorLogger.Flush ops st).1.log = st.log ++
      (match (ops.Flush st.inner).2 with
        | some e => [LogEvent.flushE e]
        | none => []) := by
  refine ⟨?_, ?_, ?_, ?_, ?_, ?_, ?_⟩
  · rcases h : ops.Put st.inner k v with ⟨s2, e⟩
    cases e <;> simp [errorLogger.Put, h]
  · rcases h : ops.Get st.inner k with ⟨s2, v?, e⟩
    cases e with
    | none => simp [errorLogger.Get, h]
    | some e =>
        by_cases he : e = GoErr.keyNotFound <;> simp [errorLogger.Get, h, he]
  · rcases h : ops.Flush st.inner with ⟨s2, e⟩
    cases e <;> simp [errorLogger.Flush, h]
  · rcases h : ops.Remove st.inner k with ⟨s2, b⟩
    simp [errorLogger.Remove, h]
  · rcases h : ops.Get st.inner k with ⟨s2, v?, e⟩
    cases e with
    | none => simp [errorLogger.Get, h]
    | some e =>
        by_cases he : e = GoErr.keyNotFound <;> simp [errorLogger.Get, h, he]
  · rcases h : ops.Put st.inner k v with ⟨s2, e⟩
    cases e <;> simp [errorLogger.Put, h]
  · rcases h : ops.Flush st.inner with ⟨s2, e⟩
    cases e <;> simp [errorLogger.Flush, h]

/-- Witness: the amended error-logger behaviour evaluated over a memory
storage. -/
theorem errorLogger_amended_witness :
    (errorLogger.Put (memOps Nat Nat) ⟨[], []⟩ 1 2).2 = none :=
  (errorLogger_amended (memOps Nat Nat) ⟨[], []⟩ 1 2).1

/-- C7: with the expiration layer (TTL 8) over a memory storage and a
manually advanced clock: at t=0 Put(5,6) succeeds and Get(5) returns 6;
at t=5 Get(5) still returns 6 and Put(7,8) succeeds; at t=15 Get(5) and
Get(7) both return NotFound, and both expired entries have been removed
from the storage (and their deadlines dropped) through the layer's Remove,
each deadline being strictly before Now() at that point. -/
theorem expiration_scenario :
    expStep1.2 = none ∧ expStep2.2 = (some 6, none) ∧ expStep3.2 = (some 6, none) ∧
    expStep4.2 = none ∧
    expStep5.2 = (none, some GoErr.keyNotFound) ∧ expStep6.2 = (none, some GoErr.keyNotFound) ∧
    expStep5.1.inner = [(7, 8)] ∧ expStep6.1.inner = [] ∧ expStep6.1.dates = [] := by
  decide

/-- C5: for every key k, the single-flight layer's Remove(k) returns true
exactly when the inner Remove returned true or a call was pending for k,
and it resolves the pending call (captured unresolved, hence with no
recorded value) with value nil and error NotFound, so every waiter's Await
yields (nil, NotFound). -/
theorem singleFlight_remove_spec [DecidableEq K] (ops : CacheOps σ K V)
    (st : SFState σ K V) (k : K) :
    (singleFlight.Remove ops st k).2
        = ((ops.Remove st.inner k).2 || (assocGet st.calls k).isSome) ∧
    (∀ c, assocGet st.calls k = some c → c.resolved = false →
      assocGet (singleFlight.Remove ops st k).1.calls k
          = some (call.Resolve c none (some GoErr.keyNotFound)).1 ∧
      (call.Resolve c none (some GoErr.keyNotFound)).1.resolved = true ∧
      (call.Resolve c none (some GoErr.keyNotFound)).1.err = some GoErr.keyNotFound ∧
      (c.value = none →
        call.Await (call.Resolve c none (some GoErr.keyNotFound)).1
          = (none, some GoErr.keyNotFound))) := by
  constructor
  · cases h : assocGet st.calls k <;> simp [singleFlight.Remove, h]
  · intro c hc hr
    refine ⟨?_, ?_, ?_, ?_⟩
    · simp [singleFlight.Remove, hc, assocGet_set_self]
    · simp [call.Resolve, hr]
    · simp [call.Resolve, hr]
    · intro hv
      simp [call.Resolve, call.Await, hr, hv]

/-- Witness: the single-flight Remove theorem evaluated with one entry in
the memory storage and one fresh pending call for the same key. -/
theorem singleFlight_remove_spec_witness :
    (singleFlight.Remove (memOps Nat Nat) ⟨[(1, 5)], [(1, ⟨false, none, none⟩)]⟩ 1).2 = true ∧
    assocGet (singleFlight.Remove (memOps Nat Nat)
        ⟨[(1, 5)], [(1, ⟨false, none, none⟩)]⟩ 1).1.calls 1
      = some ⟨true, none, some GoErr.keyNotFound⟩ ∧
    call.Await (⟨true, none, some GoErr.keyNotFound⟩ : CallState Nat)
      = (none, some GoErr.keyNotFound) := by
  have h := singleFlight_remove_spec (memOps Nat Nat)
    (⟨[(1, 5)], [(1, ⟨false, none, none⟩)]⟩ : SFState (memoryStorage Nat Nat) Nat Nat) 1
  have h2 := h.2 ⟨false, none, none⟩ (by decide) rfl
  exact ⟨by rw [h.1]; decide, h2.1, h2.2.2.2 rfl⟩

/-- C6: Call.Resolve is idempotent.  On an unresolved call the first
Resolve marks it resolved, records the error (when non-nil, leaving the
value untouched) or the value (when the error is nil, leaving the stored
error untouched), and releases the waiters and fires the on-resolve hook;
a Resolve on an already resolved call changes nothing and fires nothing,
so any second invocation after a first one leaves value, error and the
resolved flag unchanged. -/
theorem call_resolve_idempotent (c : CallState V) (v v' : Option V) (e e' : Option GoErr) :
    (c.resolved = false →
      (call.Resolve c v e).1.resolved = true ∧ (call.Resolve c v e).2 = true ∧
      (∀ er, e = some er →
        (call.Resolve c v e).1.err = some er ∧ (call.Resolve c v e).1.value = c.value) ∧
      (e = none → (call.Resolve c v e).1.value = v ∧ (call.Resolve c v e).1.err = c.err)) ∧
    (c.resolved = true → call.Resolve c v e = (c, false)) ∧
    call.Resolve (call.Resolve c v e).1 v' e' = ((call.Resolve c v e).1, false) := by
  refine ⟨?_, ?_, ?_⟩
  · intro hr
    cases e <;> simp [call.Resolve, hr]
  · intro hr
    simp [call.Resolve, hr]
  · by_cases hr : c.resolved
    · cases e <;> simp [call.Resolve, hr]
    · cases e <;> simp [call.Resolve, hr]

/-- Witness: Resolve idempotence evaluated on a fresh call, first resolved
successfully with value 1, then resolved again with different arguments to
no effect. -/
theorem call_resolve_idempotent_witness :
    call.Resolve (call.Resolve (⟨false, none, none⟩ : CallState Nat) (some 1) none).1
        (some 2) (some GoErr.keyNotFound)
      = ((call.Resolve (⟨false, none, none⟩ : CallState Nat) (some 1) none).1, false) ∧
    (call.Resolve (⟨false, none, none⟩ : CallState Nat) (some 1) none).1.resolved = true ∧
    (call.Resolve (⟨false, none, none⟩ : CallState Nat) (some 1) none).1.value = some 1 := by
  have h := call_resolve_idempotent (⟨false, none, none⟩ : CallState Nat)
    (some 1) (some 2) none (some GoErr.keyNotFound)
  have h1 := h.1 rfl
  exact ⟨h.2.2, h1.1, (h1.2.2.2 rfl).1⟩
